import Mathlib

/-!
Verification of the retrieval core of the `Chatbox` RAG support bot
(`scripts/ingest.js` and `src/server.js`) against its natural-language
specification.

Strings from the JavaScript source are modelled as `List Char`; JavaScript
numbers appearing in index arithmetic are modelled as `Int`/`Nat` (all the
relevant values are integral); floating-point embedding values are modelled
as real numbers.  External collaborators (network fetch, the embedding and
completion services, URL parsing and JSON parsing built-ins) are modelled as
oracle function parameters, per the spec's component boundaries.
-/

namespace Chatbox

/-! ### JavaScript string trim

`String.prototype.trim` removes leading and trailing whitespace.  The pages
ingested here are whitespace-normalised first (`replace(/\s+/g, ' ')`), so the
ASCII whitespace characters suffice for the model. -/

def isJsSpace (c : Char) : Bool :=
  c == ' ' || c == '\t' || c == '\n' || c == '\r'

def jsTrim (s : List Char) : List Char :=
  ((s.dropWhile isJsSpace).reverse.dropWhile isJsSpace).reverse

/-! ### Chunker (`chunkText`, ingest.js lines 81-93)

```js
function chunkText(text, chunkSize = 1200, overlap = 150) {
  const chunks = [];
  let start = 0;
  while (start < text.length) {
    const end = Math.min(text.length, start + chunkSize);
    const chunk = text.slice(start, end);
    if (chunk.trim().length > 0) chunks.push(chunk.trim());
    start = end - overlap;
    if (start < 0) start = 0;
    if (start >= text.length) break;
  }
  return chunks;
}
```

The while-loop is embedded as a fuel-indexed step function: `none` means the
loop has not finished within the given fuel, `some chunks` means the loop
exited (either the `while` guard became false or the `break` fired) returning
the accumulated chunk list.  `start` is an `Int`, as in the source, where
`end - overlap` can be negative before the clamp on line 89. -/

def chunkEnd (text : List Char) (chunkSize : Nat) (start : Int) : Int :=
  min (text.length : Int) (start + chunkSize)

def sliceAt (text : List Char) (start e : Int) : List Char :=
  (text.take e.toNat).drop start.toNat

def nextStart (text : List Char) (chunkSize overlap : Nat) (start : Int) : Int :=
  if chunkEnd text chunkSize start - overlap < 0 then 0
  else chunkEnd text chunkSize start - overlap

def pushChunk (chunks : List (List Char)) (c : List Char) : List (List Char) :=
  if 0 < (jsTrim c).length then chunks ++ [jsTrim c] else chunks

def chunkTextGo (text : List Char) (chunkSize overlap : Nat) :
    Nat → Int → List (List Char) → Option (List (List Char))
  | 0, _, _ => none
  | fuel+1, start, chunks =>
    if start < (text.length : Int) then
      if (text.length : Int) ≤ nextStart text chunkSize overlap start then
        some (pushChunk chunks (sliceAt text start (chunkEnd text chunkSize start)))
      else
        chunkTextGo text chunkSize overlap fuel (nextStart text chunkSize overlap start)
          (pushChunk chunks (sliceAt text start (chunkEnd text chunkSize start)))
    else some chunks

def chunkText (text : List Char) (chunkSize overlap fuel : Nat) :
    Option (List (List Char)) :=
  chunkTextGo text chunkSize overlap fuel 0 []

/-- The advanced start position is clamped to `[0, len - overlap]`, so for a
non-empty text and positive overlap it never reaches `len`: neither the
`break` on line 90 nor the `while` guard can stop the loop. -/
theorem nextStart_bounds (text : List Char) (chunkSize overlap : Nat)
    (hov : 1 ≤ overlap) (hlen : 1 ≤ text.length) (start : Int) :
    0 ≤ nextStart text chunkSize overlap start ∧
      nextStart text chunkSize overlap start < (text.length : Int) := by
  have he : chunkEnd text chunkSize start ≤ (text.length : Int) := min_le_left _ _
  unfold nextStart
  split <;> omega

/-- The chunking loop never exits: from any in-range start position, with
positive overlap and a non-empty text, every fuel bound is exhausted. -/
theorem chunkTextGo_eq_none (text : List Char) (chunkSize overlap : Nat)
    (hov : 1 ≤ overlap) (hlen : 1 ≤ text.length) :
    ∀ (fuel : Nat) (start : Int) (chunks : List (List Char)),
      start < (text.length : Int) →
      chunkTextGo text chunkSize overlap fuel start chunks = none := by
  intro fuel
  induction fuel with
  | zero => intro start chunks _; rfl
  | succ n ih =>
    intro start chunks hlt
    have hb := nextStart_bounds text chunkSize overlap hov hlen start
    unfold chunkTextGo
    rw [if_pos hlt, if_neg (not_le.mpr hb.2)]
    exact ih _ _ hb.2

/-- C1: the claim states that for every input text and every
`chunkSize > overlap >= 0` (including the defaults 1200/150) the sliding-window
loop of `chunkText` terminates.  The code violates this: on the one-character
text `"a"` with the default parameters, the advanced start is clamped to
`0 ≤ start ≤ len - overlap < len`, the `break` condition `start >= text.length`
never fires, and the loop runs forever — no fuel bound suffices. -/
theorem chunkText_diverges_default : ∀ fuel : Nat,
    chunkText ['a'] 1200 150 fuel = none := by
  intro fuel
  exact chunkTextGo_eq_none ['a'] 1200 150 (by omega) (by simp) fuel 0 [] (by simp)

/-- C2: the claim states that a text of length `len > overlap` with
`chunkSize > overlap ≥ 0` yields exactly `ceil((len-overlap)/(chunkSize-overlap))`
chunks; in particular a 1500-character text with the defaults 1200/150 should
yield exactly 2 chunks.  The code violates this: on a 1500-character text the
loop emits the slices `[0,1200)` and `[1050,1500)`, then `start` sticks at
`1350` and the slice `[1350,1500)` is re-appended forever — `chunkText` never
returns at all, for any fuel bound. -/
theorem chunkText_diverges_1500 : ∀ fuel : Nat,
    chunkText (List.replicate 1500 'a') 1200 150 fuel = none := by
  intro fuel
  have hlen : (List.replicate 1500 'a').length = 1500 := List.length_replicate 1500 'a'
  refine chunkTextGo_eq_none (List.replicate 1500 'a') 1200 150 (by omega)
    (by omega) fuel 0 [] ?_
  rw [hlen]; norm_num

/-- C4: the claim states that a positive-length text shorter than `chunkSize`
yields exactly one chunk and that a whitespace-only input yields zero chunks.
The code violates both: on the two-character text `"ab"` (shorter than the
default chunk size 1200) and on the whitespace-only text `" "` the loop never
exits, so `chunkText` never returns one chunk (resp. zero chunks) — it does
not return at all, for any fuel bound. -/
theorem chunkText_diverges_short : (∀ fuel : Nat,
      chunkText ['a', 'b'] 1200 150 fuel = none) ∧
    ∀ fuel : Nat, chunkText [' '] 1200 150 fuel = none := by
  constructor
  · intro fuel
    exact chunkTextGo_eq_none ['a', 'b'] 1200 150 (by omega) (by simp) fuel 0 [] (by simp)
  · intro fuel
    exact chunkTextGo_eq_none [' '] 1200 150 (by omega) (by simp) fuel 0 [] (by simp)

/-! ### Same-host filter (`sameHost`, ingest.js lines 30-38)

```js
function sameHost(url, site) {
  try {
    const a = new URL(url);
    const b = new URL(site);
    return a.host === b.host && a.protocol === b.protocol;
  } catch {
    return false;
  }
}
```

The WHATWG `new URL(s)` built-in (no base argument) is external: it returns
the parsed record for an absolute URL and throws for anything else.  It is
modelled as an oracle `parseURL : List Char → Option URLParts` where `none`
stands for the thrown `TypeError`, which the `catch` converts to `false`. -/

structure URLParts where
  protocol : List Char
  host : List Char

def sameHost (parseURL : List Char → Option URLParts) (url site : List Char) : Bool :=
  match parseURL url, parseURL site with
  | some a, some b => a.host == b.host && a.protocol == b.protocol
  | _, _ => false

/-- C9: `sameHost` returns `true` exactly when the URL parses as an absolute
URL and its scheme and host both exactly match the configured site's scheme
and host; a malformed (unparseable) URL — on either side — is rejected with
`false` rather than an error. -/
theorem sameHost_spec (parseURL : List Char → Option URLParts)
    (url site : List Char) :
    (sameHost parseURL url site = true ↔
      ∃ a b, parseURL url = some a ∧ parseURL site = some b ∧
        a.host = b.host ∧ a.protocol = b.protocol) ∧
    (parseURL url = none → sameHost parseURL url site = false) ∧
    (parseURL site = none → sameHost parseURL url site = false) := by
  refine ⟨?_, ?_, ?_⟩
  · unfold sameHost
    rcases hu : parseURL url with _ | a <;> rcases hs : parseURL site with _ | b <;>
      simp [hu, hs, Bool.and_eq_true, beq_iff_eq, and_assoc]
  · intro hu; unfold sameHost; rw [hu]
  · intro hs; unfold sameHost; rw [hs]
    rcases parseURL url with _ | a <;> rfl

/-! ### Ingestion vector records (ingest.js lines 118-139)

```js
const vectors = [];
for (const url of urls) {
  try {
    ... fetch, extract, skip short pages ...
    const chunks = chunkText(text);
    const embeddings = await embedBatch(chunks);
    for (let i = 0; i < chunks.length; i++) {
      vectors.push({ id: `${url}#${i}`, url, title, content: chunks[i], embedding: embeddings[i] });
    }
  } catch (err) { ... warn and continue ... }
}
```

The per-URL work (network fetch, HTML extraction, the 200-character minimum,
chunking, the embedding-service batch call) is abstracted as an oracle
`fetchPage : List Char → Option PageData`: `none` models a thrown/failed or
skipped page (the `catch`/`continue` paths), `some p` a page that contributed
`p.chunks` with embeddings `p.embeddings`.  The id string `` `${url}#${i}` ``
renders the per-URL counter `i` in decimal. -/

/-- The decimal digit characters; only ever applied to values below 10. -/
def digitChar : Nat → Char
  | 0 => '0'
  | 1 => '1'
  | 2 => '2'
  | 3 => '3'
  | 4 => '4'
  | 5 => '5'
  | 6 => '6'
  | 7 => '7'
  | 8 => '8'
  | _ => '9'

def natDigitsAux : Nat → Nat → List Char
  | 0, _ => []
  | fuel+1, n =>
    if n < 10 then [digitChar n]
    else natDigitsAux fuel (n / 10) ++ [digitChar (n % 10)]

/-- Decimal rendering of a natural number, as JavaScript template literals
render the chunk counter `i`. -/
def natDigits (n : Nat) : List Char :=
  natDigitsAux (n + 1) n

structure PageData where
  title : List Char
  chunks : List (List Char)
  embeddings : List (List ℝ)

structure VectorRecord where
  id : List Char
  url : List Char
  title : List Char
  content : List Char
  embedding : List ℝ

/-- The record id `` `${url}#${i}` ``. -/
def vectorId (url : List Char) (i : Nat) : List Char :=
  url ++ '#' :: natDigits i

def pageVectors (url : List Char) (p : PageData) : List VectorRecord :=
  (List.range p.chunks.length).map fun i =>
    { id := vectorId url i
      url := url
      title := p.title
      content := p.chunks.getD i []
      embedding := p.embeddings.getD i [] }

def ingestVectors (fetchPage : List Char → Option PageData) :
    List (List Char) → List VectorRecord
  | [] => []
  | url :: rest =>
    (match fetchPage url with
      | none => []
      | some p => pageVectors url p) ++ ingestVectors fetchPage rest

/-! Decimal renderings are made of digit characters only and are injective,
so the id `url ++ "#" ++ i` determines `url` and `i`: the last `'#'` in the
id separates them. -/

theorem natDigitsAux_succ (fuel n : Nat) : natDigitsAux (fuel + 1) n =
    if n < 10 then [digitChar n]
    else natDigitsAux fuel (n / 10) ++ [digitChar (n % 10)] := rfl

theorem natDigitsAux_congr : ∀ (f₁ f₂ n : Nat), n < f₁ → n < f₂ →
    natDigitsAux f₁ n = natDigitsAux f₂ n := by
  intro f₁
  induction f₁ with
  | zero => intro f₂ n h; omega
  | succ g ih =>
    intro f₂ n h₁ h₂
    match f₂, h₂ with
    | f+1, _ =>
      rw [natDigitsAux_succ, natDigitsAux_succ]
      by_cases hn : n < 10
      · rw [if_pos hn, if_pos hn]
      · rw [if_neg hn, if_neg hn]
        rw [ih f (n / 10) (by omega) (by omega)]

theorem natDigits_eq (n : Nat) : natDigits n =
    if n < 10 then [digitChar n]
    else natDigits (n / 10) ++ [digitChar (n % 10)] := by
  by_cases hn : n < 10
  · rw [if_pos hn]
    show natDigitsAux (n + 1) n = _
    rw [natDigitsAux_succ, if_pos hn]
  · rw [if_neg hn]
    show natDigitsAux (n + 1) n = natDigitsAux (n / 10 + 1) (n / 10) ++ _
    rw [natDigitsAux_succ, if_neg hn,
      natDigitsAux_congr n (n / 10 + 1) (n / 10) (by omega) (by omega)]

theorem digitChar_ne_hash (d : Nat) : digitChar d ≠ '#' := by
  match d with
  | 0 | 1 | 2 | 3 | 4 | 5 | 6 | 7 | 8 => decide
  | _+9 =>
    show ('9' : Char) ≠ '#'
    decide

theorem natDigits_ne_hash (n : Nat) : ∀ c ∈ natDigits n, c ≠ '#' := by
  induction n using Nat.strong_induction_on with
  | _ n ih =>
    rw [natDigits_eq]
    by_cases hn : n < 10
    · rw [if_pos hn]
      intro c hc
      rw [List.mem_singleton] at hc
      rw [hc]; exact digitChar_ne_hash n
    · rw [if_neg hn]
      intro c hc
      rcases List.mem_append.mp hc with h | h
      · exact ih (n / 10) (Nat.div_lt_self (by omega) (by omega)) c h
      · rw [List.mem_singleton] at h
        rw [h]; exact digitChar_ne_hash (n % 10)

theorem natDigits_ne_nil (n : Nat) : natDigits n ≠ [] := by
  rw [natDigits_eq]
  by_cases hn : n < 10
  · rw [if_pos hn]; simp
  · rw [if_neg hn]; simp

theorem digitChar_inj : ∀ d₁ < 10, ∀ d₂ < 10,
    digitChar d₁ = digitChar d₂ → d₁ = d₂ := by decide

theorem natDigits_inj : ∀ m n : Nat, natDigits m = natDigits n → m = n := by
  intro m
  induction m using Nat.strong_induction_on with
  | _ m ih =>
    intro n h
    rw [natDigits_eq m, natDigits_eq n] at h
    by_cases hm : m < 10 <;> by_cases hn : n < 10
    · rw [if_pos hm, if_pos hn] at h
      simp only [List.cons.injEq, and_true] at h
      exact digitChar_inj m hm n hn h
    · rw [if_pos hm, if_neg hn] at h
      have hl := congrArg List.length h
      simp at hl
      exact absurd hl (natDigits_ne_nil (n / 10))
    · rw [if_neg hm, if_pos hn] at h
      have hl := congrArg List.length h
      simp at hl
      exact absurd hl (natDigits_ne_nil (m / 10))
    · rw [if_neg hm, if_neg hn] at h
      have h' := congrArg List.reverse h
      simp only [List.reverse_append, List.reverse_singleton, List.singleton_append,
        List.cons.injEq] at h'
      have hdig : m % 10 = n % 10 :=
        digitChar_inj _ (Nat.mod_lt m (by omega)) _ (Nat.mod_lt n (by omega)) h'.1
      have hrec : natDigits (m / 10) = natDigits (n / 10) :=
        List.reverse_injective h'.2
      have hdiv : m / 10 = n / 10 :=
        ih (m / 10) (Nat.div_lt_self (by omega) (by omega)) _ hrec
      omega

/-- A hash-free prefix followed by the first `'#'` determines the split. -/
theorem hash_split : ∀ (x y s t : List Char), (∀ c ∈ x, c ≠ '#') →
    (∀ c ∈ y, c ≠ '#') → x ++ '#' :: s = y ++ '#' :: t → x = y ∧ s = t := by
  intro x
  induction x with
  | nil =>
    intro y s t _ hy h
    cases y with
    | nil =>
      simp only [List.nil_append, List.cons.injEq] at h
      exact ⟨rfl, h.2⟩
    | cons d y' =>
      simp only [List.nil_append, List.cons_append, List.cons.injEq] at h
      exact absurd h.1.symm (hy d (List.mem_cons_self d y'))
  | cons c x' ih =>
    intro y s t hx hy h
    cases y with
    | nil =>
      simp only [List.cons_append, List.nil_append, List.cons.injEq] at h
      exact absurd h.1 (hx c (List.mem_cons_self c x'))
    | cons d y' =>
      simp only [List.cons_append, List.cons.injEq] at h
      have hx' : ∀ a ∈ x', a ≠ '#' := fun a ha => hx a (List.mem_cons_of_mem c ha)
      have hy' : ∀ a ∈ y', a ≠ '#' := fun a ha => hy a (List.mem_cons_of_mem d ha)
      obtain ⟨h1, h2⟩ := ih y' s t hx' hy' h.2
      exact ⟨by rw [h.1, h1], h2⟩

/-- The id string determines the source URL and the chunk counter: the
decimal counter contains no `'#'`, so the last `'#'` in the id is the
separator appended by the template literal. -/
theorem vectorId_inj (u₁ u₂ : List Char) (i₁ i₂ : Nat)
    (h : vectorId u₁ i₁ = vectorId u₂ i₂) : u₁ = u₂ ∧ i₁ = i₂ := by
  unfold vectorId at h
  have h' := congrArg List.reverse h
  simp only [List.reverse_append, List.reverse_cons] at h'
  rw [List.append_assoc, List.append_assoc, List.singleton_append,
    List.singleton_append] at h'
  have hd₁ : ∀ c ∈ (natDigits i₁).reverse, c ≠ '#' := by
    intro c hc
    exact natDigits_ne_hash i₁ c (List.mem_reverse.mp hc)
  have hd₂ : ∀ c ∈ (natDigits i₂).reverse, c ≠ '#' := by
    intro c hc
    exact natDigits_ne_hash i₂ c (List.mem_reverse.mp hc)
  obtain ⟨h1, h2⟩ := hash_split _ _ _ _ hd₁ hd₂ h'
  refine ⟨List.reverse_injective h2, natDigits_inj i₁ i₂ (List.reverse_injective h1)⟩

/-- Every id occurring in an ingestion run's vector list is `vectorId u i`
for some processed URL `u`. -/
theorem ingestVectors_id_mem (fetchPage : List Char → Option PageData) :
    ∀ (urls : List (List Char)) (x : List Char),
      x ∈ (ingestVectors fetchPage urls).map VectorRecord.id →
      ∃ u ∈ urls, ∃ i, x = vectorId u i := by
  intro urls
  induction urls with
  | nil => intro x hx; simp [ingestVectors] at hx
  | cons u rest ih =>
    intro x hx
    rw [ingestVectors, List.map_append, List.mem_append] at hx
    rcases hx with hx | hx
    · rcases hfetch : fetchPage u with _ | p
      · rw [hfetch] at hx; simp at hx
      · rw [hfetch] at hx
        simp only [pageVectors, List.map_map, List.mem_map, Function.comp] at hx
        obtain ⟨i, _, hi⟩ := hx
        exact ⟨u, List.mem_cons_self u rest, i, hi.symm⟩
    · obtain ⟨u', hu', i, hi⟩ := ih x hx
      exact ⟨u', List.mem_cons_of_mem u hu', i, hi⟩

/-- C6 counterexample: the run never deduplicates the discovered URL list
(sitemap `loc` entries are collected verbatim), so processing the same URL
twice restarts the per-URL chunk counter and produces the id `"u#0"` twice. -/
theorem ingestVectors_dup_url_ids_clash :
    ¬ ((ingestVectors (fun _ => some ⟨[], [['c']], [[]]⟩)
        [['u'], ['u']]).map VectorRecord.id).Nodup := by decide

/-- C6 (amended): in an ingestion run whose processed URL list is free of
duplicates, all vector ids are pairwise distinct — the per-URL counter
separates chunks of one page and the URL part separates pages. -/
theorem ingestVectors_ids_nodup (fetchPage : List Char → Option PageData)
    (urls : List (List Char)) (h : urls.Nodup) :
    ((ingestVectors fetchPage urls).map VectorRecord.id).Nodup := by
  induction urls with
  | nil => simp [ingestVectors]
  | cons u rest ih =>
    rw [List.nodup_cons] at h
    rw [ingestVectors, List.map_append, List.nodup_append]
    refine ⟨?_, ih h.2, ?_⟩
    · rcases hfetch : fetchPage u with _ | p
      · simp
      · simp only [pageVectors, List.map_map, Function.comp]
        refine List.Nodup.map_on ?_ (List.nodup_range _)
        intro i _ j _ hij
        exact (vectorId_inj u u i j hij).2
    · intro x hx hx'
      obtain ⟨u', hu', i', hi'⟩ := ingestVectors_id_mem fetchPage rest x hx'
      rcases hfetch : fetchPage u with _ | p
      · rw [hfetch] at hx; simp at hx
      · rw [hfetch] at hx
        simp only [pageVectors, List.map_map, List.mem_map, Function.comp] at hx
        obtain ⟨i, _, hi⟩ := hx
        have heq : vectorId u i = vectorId u' i' := hi.trans hi'
        have hud : u = u' := (vectorId_inj u u' i i' heq).1
        exact h.1 (hud ▸ hu')

/-- C6 amended-claim witness at a concrete two-URL run. -/
theorem ingestVectors_ids_nodup_witness :
    ([['u'], ['v']] : List (List Char)).Nodup ∧
      ((ingestVectors (fun _ => some ⟨[], [['c']], [[]]⟩)
        [['u'], ['v']]).map VectorRecord.id).Nodup :=
  ⟨by decide, ingestVectors_ids_nodup _ _ (by decide)⟩

/-! ### Cosine similarity (`cosineSimilarity`, server.js lines 41-51)

```js
function cosineSimilarity(a, b) {
  let dot = 0; let normA = 0; let normB = 0;
  for (let i = 0; i < a.length; i++) {
    dot += a[i] * b[i];
    normA += a[i] * a[i];
    normB += b[i] * b[i];
  }
  return dot / (Math.sqrt(normA) * Math.sqrt(normB) + 1e-8);
}
```

The loop runs over the indices of `a`.  Floating-point values are modelled as
real numbers; the accumulated sums become list sums.  When `b` is at least as
long as `a` the model agrees with the loop index-for-index (`b` truncated to
`a.length`); a `b` shorter than `a` makes the JavaScript produce `NaN`, which
has no real-number counterpart and is outside every claim (the claims relate
vectors of equal length). -/

noncomputable def sumSq (a : List ℝ) : ℝ :=
  (a.map fun x => x * x).sum

noncomputable def dotp (a b : List ℝ) : ℝ :=
  (List.zipWith (fun x y => x * y) a b).sum

/-- The `1e-8` added to the denominator on line 50. -/
noncomputable def epsDenom : ℝ := 1 / 100000000

noncomputable def cosineSimilarity (a b : List ℝ) : ℝ :=
  dotp a b / (Real.sqrt (sumSq a) * Real.sqrt (sumSq (b.take a.length)) + epsDenom)

theorem sumSq_nonneg (a : List ℝ) : 0 ≤ sumSq a := by
  induction a with
  | nil => simp [sumSq]
  | cons x a ih =>
    have hx : 0 ≤ x * x := mul_self_nonneg x
    simp only [sumSq, List.map_cons, List.sum_cons]
    have : sumSq a = (a.map fun x => x * x).sum := rfl
    nlinarith [ih]

theorem sumSq_cons (x : ℝ) (a : List ℝ) : sumSq (x :: a) = x * x + sumSq a := by
  simp [sumSq]

theorem sumSq_pos (a : List ℝ) (h : ∃ x ∈ a, x ≠ 0) : 0 < sumSq a := by
  induction a with
  | nil => simp at h
  | cons y a ih =>
    rw [sumSq_cons]
    rcases h with ⟨x, hx, hx0⟩
    rcases List.mem_cons.mp hx with rfl | hx
    · have hpos : 0 < x * x := mul_self_pos.mpr hx0
      nlinarith [sumSq_nonneg a]
    · have := ih ⟨x, hx, hx0⟩
      nlinarith [mul_self_nonneg y]

theorem dotp_self (a : List ℝ) : dotp a a = sumSq a := by
  induction a with
  | nil => rfl
  | cons x a ih =>
    have hstep : dotp (x :: a) (x :: a) = x * x + dotp a a := by simp [dotp]
    rw [hstep, ih, sumSq_cons]

theorem dotp_comm (a b : List ℝ) : dotp a b = dotp b a := by
  unfold dotp
  rw [List.zipWith_comm_of_comm (fun x y => x * y) (fun x y => mul_comm x y) a b]

theorem dotp_eq_sum : ∀ (a b : List ℝ), a.length = b.length →
    dotp a b = ∑ i ∈ Finset.range a.length, a.getD i 0 * b.getD i 0 := by
  intro a
  induction a with
  | nil => intro b _; simp [dotp]
  | cons x a ih =>
    intro b hb
    cases b with
    | nil => simp at hb
    | cons y b =>
      simp only [List.length_cons] at hb
      simp only [dotp, List.zipWith_cons_cons, List.sum_cons, List.length_cons]
      rw [Finset.sum_range_succ']
      simp only [List.getD_cons_succ, List.getD_cons_zero]
      have := ih b (by omega)
      unfold dotp at this
      rw [this]
      ring

theorem sumSq_eq_sum : ∀ a : List ℝ,
    sumSq a = ∑ i ∈ Finset.range a.length, a.getD i 0 ^ 2 := by
  intro a
  induction a with
  | nil => simp [sumSq]
  | cons x a ih =>
    simp only [sumSq, List.map_cons, List.sum_cons, List.length_cons]
    rw [Finset.sum_range_succ']
    simp only [List.getD_cons_succ, List.getD_cons_zero]
    have : (a.map fun x => x * x).sum = sumSq a := rfl
    rw [this, ih]
    ring

/-- Cauchy-Schwarz for the loop's accumulated sums. -/
theorem abs_dotp_le (a b : List ℝ) (hlen : a.length = b.length) :
    |dotp a b| ≤ Real.sqrt (sumSq a) * Real.sqrt (sumSq b) := by
  rw [dotp_eq_sum a b hlen, sumSq_eq_sum a, sumSq_eq_sum b, ← hlen]
  rw [abs_le]
  constructor
  · have h := Real.sum_mul_le_sqrt_mul_sqrt (Finset.range a.length)
      (fun i => -(a.getD i 0)) (fun i => b.getD i 0)
    simp only [neg_mul, neg_sq, Finset.sum_neg_distrib] at h
    linarith
  · exact Real.sum_mul_le_sqrt_mul_sqrt _ _ _

/-- C8: `cosineSimilarity` is symmetric on equal-length vectors, is
approximately `1` on any non-zero vector paired with itself (within
`epsDenom / sumSq a` of `1`, the deviation caused by the `1e-8` in the
denominator), and always lies in `[-1 - epsDenom, 1 + epsDenom]` (in fact in
`[-1, 1]`, by Cauchy-Schwarz). -/
theorem cosineSimilarity_spec (a b : List ℝ) (hlen : a.length = b.length) :
    cosineSimilarity a b = cosineSimilarity b a ∧
    ((∃ x ∈ a, x ≠ 0) → |cosineSimilarity a a - 1| ≤ epsDenom / sumSq a) ∧
    -1 - epsDenom ≤ cosineSimilarity a b ∧ cosineSimilarity a b ≤ 1 + epsDenom := by
  have heps : (0 : ℝ) < epsDenom := by unfold epsDenom; norm_num
  have htb : b.take a.length = b := by rw [hlen]; exact List.take_length b
  have hta : a.take b.length = a := by rw [← hlen]; exact List.take_length a
  refine ⟨?_, ?_, ?_⟩
  · unfold cosineSimilarity
    rw [htb, hta, dotp_comm a b, mul_comm (Real.sqrt (sumSq a)) (Real.sqrt (sumSq b))]
  · intro hnz
    have hSa : 0 < sumSq a := sumSq_pos a hnz
    have hself : cosineSimilarity a a = sumSq a / (sumSq a + epsDenom) := by
      unfold cosineSimilarity
      rw [List.take_length, dotp_self, Real.mul_self_sqrt (sumSq_nonneg a)]
    have hden : 0 < sumSq a + epsDenom := by linarith
    rw [hself]
    have hdiff : sumSq a / (sumSq a + epsDenom) - 1 = -(epsDenom / (sumSq a + epsDenom)) := by
      field_simp
    rw [hdiff, abs_neg, abs_of_nonneg (div_nonneg heps.le hden.le)]
    exact div_le_div_of_nonneg_left heps.le hSa (by linarith)
  · have habs := abs_dotp_le a b hlen
    have hD : 0 ≤ Real.sqrt (sumSq a) * Real.sqrt (sumSq b) :=
      mul_nonneg (Real.sqrt_nonneg _) (Real.sqrt_nonneg _)
    have hden : 0 < Real.sqrt (sumSq a) * Real.sqrt (sumSq b) + epsDenom := by linarith
    have hcos : cosineSimilarity a b =
        dotp a b / (Real.sqrt (sumSq a) * Real.sqrt (sumSq b) + epsDenom) := by
      unfold cosineSimilarity; rw [htb]
    rw [hcos]
    have habs' := abs_le.mp habs
    constructor
    · rw [le_div_iff₀ hden]
      nlinarith
    · have h1 : dotp a b / (Real.sqrt (sumSq a) * Real.sqrt (sumSq b) + epsDenom) ≤ 1 := by
        rw [div_le_one hden]
        linarith
      linarith

/-- C8 witness: the specification instantiated at the concrete equal-length
vectors `[1, 0]` and `[0, 1]`. -/
theorem cosineSimilarity_spec_witness :
    ([(1 : ℝ), 0].length = [(0 : ℝ), 1].length) ∧
      (cosineSimilarity [(1 : ℝ), 0] [(0 : ℝ), 1] = cosineSimilarity [(0 : ℝ), 1] [(1 : ℝ), 0] ∧
      ((∃ x ∈ [(1 : ℝ), 0], x ≠ 0) →
        |cosineSimilarity [(1 : ℝ), 0] [(1 : ℝ), 0] - 1| ≤ epsDenom / sumSq [(1 : ℝ), 0]) ∧
      -1 - epsDenom ≤ cosineSimilarity [(1 : ℝ), 0] [(0 : ℝ), 1] ∧
        cosineSimilarity [(1 : ℝ), 0] [(0 : ℝ), 1] ≤ 1 + epsDenom) :=
  ⟨rfl, cosineSimilarity_spec [(1 : ℝ), 0] [(0 : ℝ), 1] rfl⟩

/-! ### Retriever (`selectTopK`, server.js lines 24 and 58-65)

```js
let vectorIndex = null; // { vectors: [ { id, url, title, content, embedding:number[] } ], model }

function selectTopK(questionEmbedding, k = 6) {
  if (!vectorIndex || !Array.isArray(vectorIndex.vectors) || vectorIndex.vectors.length === 0) {
    return [];
  }
  const scored = vectorIndex.vectors.map(v => ({ ...v, score: cosineSimilarity(questionEmbedding, v.embedding) }));
  scored.sort((a, b) => b.score - a.score);
  return scored.slice(0, k);
}
```

The parsed index is modelled with `vectors : Option (List VectorRecord)`
(`none` when the JSON value has no array there, the `!Array.isArray` branch),
and the whole global with `Option VectorIndex` (`null` before any load).
`Array.prototype.sort` is stable (ECMA-262) and the comparator
`(a, b) => b.score - a.score` orders by descending score, which is the stable
descending-score sort `List.mergeSort` with `scoreLE`. -/

structure VectorIndex where
  site : List Char
  generatedAt : List Char
  model : List Char
  vectors : Option (List VectorRecord)

/-- The spread `{ ...v, score }` on line 62. -/
structure ScoredVector extends VectorRecord where
  score : ℝ

/-- The ordering induced by the comparator `(a, b) => b.score - a.score`:
`x` may precede `y` exactly when the comparator is non-positive on `(x, y)`. -/
noncomputable def scoreLE (x y : ScoredVector) : Bool :=
  decide (y.score ≤ x.score)

noncomputable def selectTopK (vectorIndex : Option VectorIndex)
    (questionEmbedding : List ℝ) (k : Nat) : List ScoredVector :=
  match vectorIndex with
  | none => []
  | some idx =>
    match idx.vectors with
    | none => []
    | some vs =>
      if vs.length = 0 then []
      else
        ((vs.map fun v =>
            { toVectorRecord := v
              score := cosineSimilarity questionEmbedding v.embedding }).mergeSort
          scoreLE).take k

/-- The stored vector list of an optional index value (empty when the index is
`null` or its `vectors` field is not an array). -/
def vectorsOf : Option VectorIndex → List VectorRecord
  | none => []
  | some idx => idx.vectors.getD []

/-- The scored copies of the stored vectors, in insertion order. -/
noncomputable def scoredOf (vectorIndex : Option VectorIndex)
    (questionEmbedding : List ℝ) : List ScoredVector :=
  (vectorsOf vectorIndex).map fun v =>
    { toVectorRecord := v
      score := cosineSimilarity questionEmbedding v.embedding }

theorem scoreLE_trans (x y z : ScoredVector) :
    scoreLE x y → scoreLE y z → scoreLE x z := by
  simp only [scoreLE, decide_eq_true_eq]
  exact fun h1 h2 => le_trans h2 h1

theorem scoreLE_total (x y : ScoredVector) : scoreLE x y || scoreLE y x := by
  simp only [scoreLE, Bool.or_eq_true, decide_eq_true_eq]
  exact le_total y.score x.score

/-- C5: `selectTopK` returns `min k n` results where `n` is the stored vector
count, sorted non-increasingly by cosine-similarity score; the output is
exactly the stable descending sort of the scored copies — equivalently, the
sort of the position-enumerated scored list in which ties are broken by the
original insertion position — truncated to `k`; and a `null` index, a missing
vector array, or an empty vector array yields `[]`, for any `k`, without
error. -/
theorem selectTopK_spec (vectorIndex : Option VectorIndex) (q : List ℝ) (k : Nat) :
    (selectTopK vectorIndex q k).length = min k (vectorsOf vectorIndex).length ∧
    (selectTopK vectorIndex q k).Pairwise (fun x y => y.score ≤ x.score) ∧
    selectTopK vectorIndex q k =
      (((scoredOf vectorIndex q).enum.mergeSort (List.enumLE scoreLE)).map (·.2)).take k ∧
    (vectorsOf vectorIndex = [] → selectTopK vectorIndex q k = []) := by
  rcases vectorIndex with _ | idx
  · refine ⟨?_, ?_, ?_, ?_⟩ <;> simp [selectTopK, vectorsOf, scoredOf]
  · rcases hv : idx.vectors with _ | vs
    · refine ⟨?_, ?_, ?_, ?_⟩ <;> simp [selectTopK, vectorsOf, scoredOf, hv]
    · by_cases hlen : vs.length = 0
      · have hnil : vs = [] := List.length_eq_zero.mp hlen
        subst hnil
        refine ⟨?_, ?_, ?_, ?_⟩ <;> simp [selectTopK, vectorsOf, scoredOf, hv]
      · have hsel : selectTopK (some idx) q k =
            ((vs.map fun v =>
              ({ toVectorRecord := v
                 score := cosineSimilarity q v.embedding } : ScoredVector)).mergeSort
              scoreLE).take k := by
          simp [selectTopK, hv, hlen]
        have hvecs : vectorsOf (some idx) = vs := by simp [vectorsOf, hv]
        have hscored : scoredOf (some idx) q = vs.map fun v =>
            ({ toVectorRecord := v
               score := cosineSimilarity q v.embedding } : ScoredVector) := by
          simp [scoredOf, vectorsOf, hv]
        refine ⟨?_, ?_, ?_, ?_⟩
        · rw [hsel, hvecs]
          simp
        · rw [hsel]
          have hs := List.sorted_mergeSort scoreLE_trans scoreLE_total
            (vs.map fun v =>
              ({ toVectorRecord := v
                 score := cosineSimilarity q v.embedding } : ScoredVector))
          have hs' := hs.imp (by
            intro x y h
            simpa [scoreLE] using h)
          exact hs'.sublist (List.take_sublist k _)
        · rw [hsel, hscored, List.mergeSort_enum]
        · intro h
          rw [hvecs] at h
          exact absurd (congrArg List.length h) (by simpa using hlen)

/-! ### Index load and reload (`loadIndex`, server.js lines 26-39 and 137-140)

```js
async function loadIndex() {
  try {
    const idxPath = path.join(__dirname, '..', 'data', 'index.json');
    if (await fs.pathExists(idxPath)) {
      const raw = await fs.readFile(idxPath, 'utf8');
      vectorIndex = JSON.parse(raw);
      ...
    } else { ...warn... }
  } catch (err) { ...log... }
}
```

The file system and `JSON.parse` are external: the persisted file is modelled
as `Option (List Char)` (`none` when `fs.pathExists` is false or the read
fails) and the parser as an oracle returning `none` for a thrown parse error
(caught on line 36).  The single assignment `vectorIndex = JSON.parse(raw)`
happens only after `JSON.parse` has returned a complete value, so the
function maps the previous in-memory reference to either itself or one
fully-parsed replacement. -/

def loadIndex (parseIndex : List Char → Option VectorIndex)
    (idxFile : Option (List Char)) (vectorIndex : Option VectorIndex) :
    Option VectorIndex :=
  match idxFile with
  | none => vectorIndex
  | some raw =>
    match parseIndex raw with
    | none => vectorIndex
    | some idx => some idx

/-- C7: a (re)load either leaves the in-memory index reference exactly as it
was — when the persisted file is missing, unreadable, or fails to parse — or
replaces it by a single fully-parsed structure; no intermediate mixed state
exists. -/
theorem loadIndex_atomic (parseIndex : List Char → Option VectorIndex)
    (idxFile : Option (List Char)) (vectorIndex : Option VectorIndex) :
    loadIndex parseIndex idxFile vectorIndex = vectorIndex ∨
      ∃ raw idx, idxFile = some raw ∧ parseIndex raw = some idx ∧
        loadIndex parseIndex idxFile vectorIndex = some idx := by
  rcases idxFile with _ | raw
  · exact Or.inl rfl
  · rcases hp : parseIndex raw with _ | idx
    · left
      simp [loadIndex, hp]
    · right
      exact ⟨raw, idx, rfl, hp, by simp [loadIndex, hp]⟩

/-! ### Process entry points and the missing-credential contract (C3)

Ingestion (`main`, ingest.js lines 100-114):

```js
async function main() {
  const { site, limit, timeoutMs, headers } = parseArgs();
  if (!process.env.OPENAI_API_KEY) {
    console.error('Missing OPENAI_API_KEY');
    process.exit(1);
  }
  ... ensureDir, URL discovery, per-page loop ...
}
```

Serving (`server.js` lines 104-146): the startup sequence is
`await loadIndex(); app.listen(port, ...)` with no credential check, and the
`/bot/answer` handler is

```js
app.post('/bot/answer', async (req, res) => {
  try {
    const question = (req.body?.question || '').toString().trim();
    if (!process.env.OPENAI_API_KEY) {
      return res.status(500).json({ error: 'Missing OPENAI_API_KEY' });
    }
    if (!question) {
      return res.status(400).json({ error: 'Missing `question`' });
    }
    const { reply, sources } = await answerQuestion(question);
    res.json({ reply, sources });
  } catch (err) { ... res.status(500).json({ error: 'Internal error' }); }
});
```

The embedding/completion pipeline behind `answerQuestion` is external and
modelled as an oracle (`none` = a thrown upstream error, caught as a 500). -/

structure IngestOutcome where
  exitedEarly : Bool
  pagesProcessed : Nat
  vectors : List VectorRecord

/-- The ingestion entry point: the credential check on lines 102-105 runs
before any directory creation, URL discovery or page processing. -/
def ingestMain (apiKey : Option (List Char))
    (fetchPage : List Char → Option PageData) (urls : List (List Char)) :
    IngestOutcome :=
  match apiKey with
  | none =>
    { exitedEarly := true
      pagesProcessed := 0
      vectors := [] }
  | some _ =>
    { exitedEarly := false
      pagesProcessed := (urls.filter fun u => (fetchPage u).isSome).length
      vectors := ingestVectors fetchPage urls }

inductive StartupOutcome where
  | aborted
  | listening (loaded : Option VectorIndex)

/-- The serving startup sequence (server.js lines 142-146): load the index,
then listen.  `StartupOutcome.aborted` is the outcome the fatal-startup
contract predicts for a missing credential; no branch of the source produces
it. -/
def serverStartup (_apiKey : Option (List Char))
    (parseIndex : List Char → Option VectorIndex)
    (idxFile : Option (List Char)) : StartupOutcome :=
  StartupOutcome.listening (loadIndex parseIndex idxFile none)

inductive BotResponse where
  | errorResponse (status : Nat) (error : List Char)
  | okResponse (reply : List Char) (sources : List (List Char × List Char))

def missingKeyError : List Char := "Missing OPENAI_API_KEY".data

def missingQuestionError : List Char := "Missing `question`".data

def internalError : List Char := "Internal error".data

def handleBotAnswer (apiKey : Option (List Char))
    (answerQuestion : List Char → Option (List Char × List (List Char × List Char)))
    (bodyQuestion : Option (List Char)) : BotResponse :=
  let question := jsTrim (bodyQuestion.getD [])
  if apiKey.isNone then
    BotResponse.errorResponse 500 missingKeyError
  else if question.isEmpty then
    BotResponse.errorResponse 400 missingQuestionError
  else
    match answerQuestion question with
    | some (reply, sources) => BotResponse.okResponse reply sources
    | none => BotResponse.errorResponse 500 internalError

/-- C3 counterexample: with no `OPENAI_API_KEY`, the serving process does not
abort — its startup sequence reaches the listening state, and a concrete
`/bot/answer` request is still served (with a 500 error body), contradicting
the claim that no request is ever served. -/
theorem serverWithoutKey_serves :
    serverStartup none (fun _ => none) none = StartupOutcome.listening none ∧
      handleBotAnswer none (fun _ => none) (some ['h', 'i']) =
        BotResponse.errorResponse 500 missingKeyError :=
  ⟨rfl, rfl⟩

/-- C3 (amended): a missing `OPENAI_API_KEY` is fatal for the ingestion run —
`main` exits before creating the output directory or processing any page —
while the serving process starts normally and reports the missing credential
per-request as a 500 error on `/bot/answer`, independent of the answer
pipeline. -/
theorem missingKey_contract
    (fetchPage : List Char → Option PageData) (urls : List (List Char))
    (ans ans' : List Char → Option (List Char × List (List Char × List Char)))
    (bodyQuestion : Option (List Char)) :
    (ingestMain none fetchPage urls).exitedEarly = true ∧
    (ingestMain none fetchPage urls).pagesProcessed = 0 ∧
    (ingestMain none fetchPage urls).vectors = [] ∧
    handleBotAnswer none ans bodyQuestion =
      BotResponse.errorResponse 500 missingKeyError ∧
    handleBotAnswer none ans bodyQuestion = handleBotAnswer none ans' bodyQuestion :=
  ⟨rfl, rfl, rfl, rfl, rfl⟩

/-! ### Query-time frame property (C10)

`selectTopK` reads the module-level `vectorIndex` binding and never assigns
to it; the only array it sorts in place is the fresh `scored` array built by
`map`, whose elements are fresh spread-copies `{ ...v, score }` of the stored
records.  The call is modelled state-passing: the global state before and
after the call, paired with the returned list. -/

structure ServerState where
  vectorIndex : Option VectorIndex

/-- One `/bot/answer`-time retrieval step: returns the top-k list and the
state of the module-level `vectorIndex` binding after the call.  The body of
`selectTopK` (lines 58-65) contains no assignment to `vectorIndex`; `map`
allocates a fresh array of fresh records, `sort` mutates only that fresh
array, `slice` copies. -/
noncomputable def selectTopKCall (st : ServerState) (questionEmbedding : List ℝ)
    (k : Nat) : List ScoredVector × ServerState :=
  (selectTopK st.vectorIndex questionEmbedding k, st)

/-- C10: after a `selectTopK` call the in-memory index is unchanged — same
reference, and in particular the vector sequence has the same length, order,
and per-record `id`, `url`, `title`, `content` and `embedding` fields. -/
theorem selectTopK_frame (st : ServerState) (questionEmbedding : List ℝ) (k : Nat) :
    (selectTopKCall st questionEmbedding k).2.vectorIndex = st.vectorIndex ∧
    (vectorsOf (selectTopKCall st questionEmbedding k).2.vectorIndex).length =
      (vectorsOf st.vectorIndex).length ∧
    (vectorsOf (selectTopKCall st questionEmbedding k).2.vectorIndex).map
        VectorRecord.id = (vectorsOf st.vectorIndex).map VectorRecord.id ∧
    (vectorsOf (selectTopKCall st questionEmbedding k).2.vectorIndex).map
        VectorRecord.url = (vectorsOf st.vectorIndex).map VectorRecord.url ∧
    (vectorsOf (selectTopKCall st questionEmbedding k).2.vectorIndex).map
        VectorRecord.title = (vectorsOf st.vectorIndex).map VectorRecord.title ∧
    (vectorsOf (selectTopKCall st questionEmbedding k).2.vectorIndex).map
        VectorRecord.content = (vectorsOf st.vectorIndex).map VectorRecord.content ∧
    (vectorsOf (selectTopKCall st questionEmbedding k).2.vectorIndex).map
        VectorRecord.embedding = (vectorsOf st.vectorIndex).map VectorRecord.embedding :=
  ⟨rfl, rfl, rfl, rfl, rfl, rfl, rfl⟩

end Chatbox
